import Mathlib

/-!
# Verification of the RBPF core against its specification

Shallow embedding of the RBPF repository (ELF loader/relocator, aligned
memory buffer, JIT call dispatch and instruction meter) in Lean 4, with
theorems settling the frozen claims about the code.

Machine integers are modelled as `Nat`/`Int` with explicit `% 2 ^ w`
where wrap-around matters.  Host allocations are modelled by an abstract
base address `base : Nat` supplied by the allocator.
-/

namespace RBPF

/-! ## Aligned memory (`src/aligned_memory.rs`)

`AlignedMemory<ALIGN>` holds `max_len`, `align_offset` and a byte vector
`mem`.  The host pointer returned by the allocator is modelled by an
abstract address `base`; Rust's `<*const u8>::align_offset(ALIGN)`
(the number of bytes that must be skipped so that `base + align_offset`
is a multiple of `ALIGN`) is modelled by `alignOffsetOf`. -/

/-- Rust `pointer::align_offset`: least `k` with `(base + k) % align = 0`. -/
def alignOffsetOf (base align : Nat) : Nat :=
  (align - base % align) % align

/-- `AlignedMemory` from `src/aligned_memory.rs`: `max_len`, `align_offset`
and the backing byte vector `mem` (bytes as `Nat`, values `< 256`). -/
structure AlignedMemory where
  maxLen : Nat
  alignOffset : Nat
  mem : List Nat
  deriving Repr, DecidableEq

namespace AlignedMemory

/-- `get_mem`: reserve capacity, push one byte, compute the alignment
offset of the allocation at `base`, and resize the vector to exactly
`align_offset` zero bytes. -/
def getMem (align base _maxLen : Nat) : List Nat × Nat :=
  let alignOffset := alignOffsetOf base align
  (List.replicate alignOffset 0, alignOffset)

/-- `get_mem_zeroed`: allocate `max_len` zeroed bytes at `base` and resize
to `align_offset + max_len` zero bytes. -/
def getMemZeroed (align base maxLen : Nat) : List Nat × Nat :=
  let alignOffset := alignOffsetOf base align
  (List.replicate (alignOffset + maxLen) 0, alignOffset)

/-- `AlignedMemory::new(max_len)` with the allocation placed at `base`. -/
def new (align base maxLen : Nat) : AlignedMemory :=
  let (mem, alignOffset) := getMem align base maxLen
  { maxLen := maxLen, alignOffset := alignOffset, mem := mem }

/-- `AlignedMemory::new_with_size(len)` with the allocation placed at `base`. -/
def newWithSize (align base len : Nat) : AlignedMemory :=
  let (mem, alignOffset) := getMemZeroed align base len
  { maxLen := len, alignOffset := alignOffset, mem := mem }

/-- `AlignedMemory::new_with_data(data)` with the allocation placed at `base`. -/
def newWithData (align base : Nat) (data : List Nat) : AlignedMemory :=
  let maxLen := data.length
  let (mem, alignOffset) := getMem align base maxLen
  { maxLen := maxLen, alignOffset := alignOffset, mem := mem ++ data }

/-- `AlignedMemory::len`: `mem.len() - align_offset`. -/
def len (m : AlignedMemory) : Nat :=
  m.mem.length - m.alignOffset

/-- `AlignedMemory::as_slice`: `mem[align_offset .. mem.len()]`. -/
def asSlice (m : AlignedMemory) : List Nat :=
  m.mem.drop m.alignOffset

/-- Mutation through `AlignedMemory::as_slice_mut`: the caller rewrites the
aligned slice in place (a `&mut [u8]` cannot change its length, so the
mutation is a length-preserving function on the slice). -/
def mutateSlice (m : AlignedMemory) (f : List Nat → List Nat) : AlignedMemory :=
  { m with mem := m.mem.take m.alignOffset ++ f (m.mem.drop m.alignOffset) }

/-- `AlignedMemory::resize(num, value)`: fails (leaving the buffer
untouched) when `mem.len() + num > align_offset + max_len`, otherwise
appends `num` copies of `value`.  The second component is the buffer
after the call (`&mut self` in Rust). -/
def resize (m : AlignedMemory) (num value : Nat) : Except String Unit × AlignedMemory :=
  if m.mem.length + num > m.alignOffset + m.maxLen then
    (Except.error "aligned memory resize failed", m)
  else
    (Except.ok (), { m with mem := m.mem ++ List.replicate num value })

/-- `io::Write::write for AlignedMemory`: fails (leaving the buffer
untouched) when `mem.len() + buf.len() > align_offset + max_len`,
otherwise appends `buf` and returns `buf.len()`. -/
def write (m : AlignedMemory) (buf : List Nat) : Except String Nat × AlignedMemory :=
  if m.mem.length + buf.length > m.alignOffset + m.maxLen then
    (Except.error "aligned memory write failed", m)
  else
    (Except.ok buf.length, { m with mem := m.mem ++ buf })

/-- `Clone for AlignedMemory`: re-allocates (at a fresh `base`) through
`new_with_data(self.as_slice())`. -/
def clone (align base : Nat) (m : AlignedMemory) : AlignedMemory :=
  newWithData align base m.asSlice

/-- The structural invariant of `AlignedMemory`: the alignment padding is
a prefix of `mem`, and the data length never exceeds the capacity. -/
def Inv (m : AlignedMemory) : Prop :=
  m.alignOffset ≤ m.mem.length ∧ m.len ≤ m.maxLen

instance (m : AlignedMemory) : Decidable m.Inv := by
  unfold Inv; infer_instance

end AlignedMemory

/-! ## Bytecode model

`ebpf.rs` is not part of the sources under verification, so the
instruction encoding is modelled from the specification (§3, also
documented in the header comment of `src/elf.rs`): an 8-byte
little-endian record `opcode:u8 | dst:4 | src:4 | offset:i16 |
immediate:i32`.  `INSN_SIZE = 8` (asserted by
`debug_assert_eq!(INSN_SIZE, 8)` in `src/jit.rs`).  Bytes are `Nat`
values `< 256`. -/

/-- Modelled from the spec: instruction size in bytes (`ebpf::INSN_SIZE`). -/
def INSN_SIZE : Nat := 8

/-- Two's-complement reading of a `w`-bit unsigned value. -/
def toSigned (w n : Nat) : Int :=
  if n < 2 ^ (w - 1) then (n : Int) else (n : Int) - 2 ^ w

/-- Two's-complement encoding of an integer into `w` bits. -/
def toUnsigned (w : Nat) (i : Int) : Nat :=
  (i % ((2 ^ w : Nat) : Int)).toNat

/-- Modelled from the spec: a decoded instruction (`ebpf::Insn`). -/
structure Insn where
  opc : Nat
  dst : Nat
  src : Nat
  off : Int
  imm : Int
  deriving Repr, DecidableEq

/-- Byte `k` of a byte vector (reads as `0` past the end; in-range for
all modelled executions). -/
def byteAt (prog : List Nat) (k : Nat) : Nat :=
  prog.getD k 0

/-- Modelled from the spec: `ebpf::get_insn(prog, idx)` decodes the 8-byte
slot at byte offset `idx * INSN_SIZE`. -/
def getInsn (prog : List Nat) (idx : Nat) : Insn :=
  { opc := byteAt prog (idx * 8 + 0)
    dst := byteAt prog (idx * 8 + 1) % 16
    src := byteAt prog (idx * 8 + 1) / 16
    off := toSigned 16 (byteAt prog (idx * 8 + 2) + 256 * byteAt prog (idx * 8 + 3))
    imm := toSigned 32 (byteAt prog (idx * 8 + 4) + 256 * byteAt prog (idx * 8 + 5) +
      65536 * byteAt prog (idx * 8 + 6) + 16777216 * byteAt prog (idx * 8 + 7)) }

/-- Modelled from the spec: `Insn::to_vec`, the 8-byte encoding of an
instruction. -/
def insnToVec (insn : Insn) : List Nat :=
  [insn.opc, insn.src * 16 + insn.dst,
   toUnsigned 16 insn.off % 256, toUnsigned 16 insn.off / 256 % 256,
   toUnsigned 32 insn.imm % 256, toUnsigned 32 insn.imm / 256 % 256,
   toUnsigned 32 insn.imm / 65536 % 256, toUnsigned 32 insn.imm / 16777216 % 256]

/-- `LittleEndian::write_u64`: the 8 little-endian bytes of `n`. -/
def le64Bytes (n : Nat) : List Nat :=
  [n % 256, n / 2 ^ 8 % 256, n / 2 ^ 16 % 256, n / 2 ^ 24 % 256,
   n / 2 ^ 32 % 256, n / 2 ^ 40 % 256, n / 2 ^ 48 % 256, n / 2 ^ 56 % 256]

/-- All bytes of a program are in range (`Vec<u8>` in the source). -/
def ValidBytes (prog : List Nat) : Prop :=
  ∀ b ∈ prog, b < 256

instance (prog : List Nat) : Decidable (ValidBytes prog) := by
  unfold ValidBytes
  infer_instance

/-! ## `EBpfElf::fixup_relative_calls` (`src/elf.rs`, lines 231-267)

The call registry `calls : HashMap<u32, usize>` is modelled as an
association list; `HashMap::insert` returning `Some` (the collision
check) is modelled by a `lookup` test before consing.
`ebpf::hash_symbol_name` is not under `src/`; it is modelled from the
spec as an arbitrary deterministic 32-bit hash, passed in as a function
`hash` whose `u32` result is `hash bytes % 2 ^ 32`. -/

/-- One iteration of the `fixup_relative_calls` loop at instruction
index `i`: rewrite a call-immediate (opcode `0x85`, immediate ≠ −1)
to its symbol-hash key and record the call target. -/
def fixupStep (hash : List Nat → Nat) (len8 : Nat)
    (st : List (Nat × Nat) × List Nat) (i : Nat) :
    Except String (List (Nat × Nat) × List Nat) :=
  if (getInsn st.2 i).opc = 0x85 ∧ (getInsn st.2 i).imm ≠ -1 then
    if ((i : Int) + 1 + (getInsn st.2 i).imm) < 0 ∨
        ((len8 : Nat) : Int) ≤ (i : Int) + 1 + (getInsn st.2 i).imm then
      Except.error "Error: Relative jump is out of bounds"
    else if (st.1.lookup (hash (le64Bytes i) % 2 ^ 32)).isSome then
      Except.error "Error: Relocation hash collision"
    else
      Except.ok ((hash (le64Bytes i) % 2 ^ 32,
          ((i : Int) + 1 + (getInsn st.2 i).imm).toNat) :: st.1,
        st.2.take (i * 8) ++
          insnToVec { getInsn st.2 i with
            imm := toSigned 32 (hash (le64Bytes i) % 2 ^ 32) } ++
          st.2.drop (i * 8 + 8))
  else
    Except.ok st

/-- The `for i in 0..prog.len() / INSN_SIZE` loop of
`fixup_relative_calls`, starting at index `i`; the first argument is
structural fuel bounding the remaining iterations (`len8 - i` at the
call site, so the loop never runs out). -/
def fixupGo (hash : List Nat → Nat) (len8 : Nat) :
    Nat → (List (Nat × Nat) × List Nat) → Nat →
    Except String (List (Nat × Nat) × List Nat)
  | 0, st, _ => Except.ok st
  | fuel + 1, st, i =>
    if i < len8 then
      match fixupStep hash len8 st i with
      | Except.error e => Except.error e
      | Except.ok st' => fixupGo hash len8 fuel st' (i + 1)
    else
      Except.ok st

/-- `EBpfElf::fixup_relative_calls(calls, prog)`. -/
def fixupRelativeCalls (hash : List Nat → Nat)
    (calls : List (Nat × Nat)) (prog : List Nat) :
    Except String (List (Nat × Nat) × List Nat) :=
  fixupGo hash (prog.length / 8) (prog.length / 8) (calls, prog) 0

/-- The instruction slot `i` of `prog` holds a call-immediate
(opcode `0x85`) whose immediate is not the pc-relative sentinel `-1`. -/
def RelCallAt (prog : List Nat) (i : Nat) : Prop :=
  (getInsn prog i).opc = 0x85 ∧ (getInsn prog i).imm ≠ -1

instance (prog : List Nat) (i : Nat) : Decidable (RelCallAt prog i) := by
  unfold RelCallAt; infer_instance

/-- The symbol-hash key of call site `i`:
`hash_symbol_name(little_endian_u64(i))` (a `u32`). -/
def callKey (hash : List Nat → Nat) (i : Nat) : Nat :=
  hash (le64Bytes i) % 2 ^ 32

/-- The call target of the relative call at slot `i`:
`current_index + 1 + immediate`. -/
def callTarget (prog : List Nat) (i : Nat) : Int :=
  (i : Int) + 1 + (getInsn prog i).imm

/-! ## ELF model (`src/elf.rs`)

The `elfkit` crate (an external dependency) parses the byte stream into
an `Elf` value; that already-parsed structure is the model's input.
Only the enum variants the loader inspects are distinguished; every
other variant is collapsed into an `other` constructor.  Section names
are modelled as `String` (the source compares `Vec<u8>` names against
byte-string literals such as `b".text"`); names are byte lists, with
`nameText` etc. naming the literals the loader compares against. -/

/-- The bytes of `b".text"`. -/
def nameText : List Nat := [46, 116, 101, 120, 116]

/-- The bytes of `b".rodata"`. -/
def nameRodata : List Nat := [46, 114, 111, 100, 97, 116, 97]

/-- The bytes of `b".data.rel.ro"`. -/
def nameDataRelRo : List Nat := [46, 100, 97, 116, 97, 46, 114, 101, 108, 46, 114, 111]

/-- The bytes of `b".rel.dyn"`. -/
def nameRelDyn : List Nat := [46, 114, 101, 108, 46, 100, 121, 110]

/-- The bytes of `b".dynsym"`. -/
def nameDynsym : List Nat := [46, 100, 121, 110, 115, 121, 109]

/-- `elfkit::types::Class` (the variants `validate` distinguishes). -/
inductive ElfClass where
  | Class32
  | Class64
  deriving Repr, DecidableEq

/-- `elfkit::types::Endianness`. -/
inductive ElfEndianness where
  | LittleEndian
  | BigEndian
  deriving Repr, DecidableEq

/-- `elfkit::types::Abi`. -/
inductive ElfAbi where
  | SYSV
  | other
  deriving Repr, DecidableEq

/-- `elfkit::types::Machine`. -/
inductive ElfMachine where
  | BPF
  | other
  deriving Repr, DecidableEq

/-- `elfkit::types::ElfType`. -/
inductive ElfFileType where
  | DYN
  | other
  deriving Repr, DecidableEq

/-- `elfkit::types::SymbolType`. -/
inductive ElfSymbolType where
  | FUNC
  | other
  deriving Repr, DecidableEq

/-- A `.dynsym` symbol (the fields `relocate` reads). -/
structure ElfSymbol where
  name : List Nat
  value : Nat
  stype : ElfSymbolType
  deriving Repr, DecidableEq

/-- `elfkit::SectionContent` (raw bytes, a symbol table, or anything else). -/
inductive SectionContent where
  | raw (bytes : List Nat)
  | symbols (syms : List ElfSymbol)
  | other
  deriving Repr, DecidableEq

/-- The section-header fields the loader reads. -/
structure ElfSectionHeader where
  addr : Nat
  size : Nat
  deriving Repr, DecidableEq

/-- An ELF section. -/
structure ElfSection where
  name : List Nat
  header : ElfSectionHeader
  content : SectionContent
  deriving Repr, DecidableEq

/-- The ELF header fields the loader reads. -/
structure ElfHeader where
  identClass : ElfClass
  identEndianness : ElfEndianness
  identAbi : ElfAbi
  machine : ElfMachine
  etype : ElfFileType
  entry : Nat
  deriving Repr, DecidableEq

/-- A parsed ELF (`elfkit::Elf` after `load_all`). -/
structure Elf where
  header : ElfHeader
  sections : List ElfSection
  deriving Repr, DecidableEq

/-- A parsed `.rel.dyn` relocation record (`elfkit::Relocation`);
`rtype` is kept as the raw x86 relocation-type number. -/
structure Reloc where
  addr : Nat
  sym : Nat
  rtype : Nat
  deriving Repr, DecidableEq

/-- `SectionInfo` of `src/elf.rs` together with the host base address of
its byte buffer (`bytes.as_ptr()`, abstract). -/
structure SectionInfo where
  va : Nat
  len : Nat
  bytes : List Nat
  hostBase : Nat
  deriving Repr, DecidableEq

/-- Whether an `Except` value is an error. -/
def isErr {ε α : Type} : Except ε α → Bool
  | Except.error _ => true
  | Except.ok _ => false

/-- `EBpfElf::get_section(name)`: first section with the given name. -/
def getSection (elf : Elf) (name : List Nat) : Except String ElfSection :=
  match elf.sections.find? (fun s => s.name = name) with
  | some s => Except.ok s
  | none => Except.error "Error: No section found"

/-- `EBpfElf::validate` (`src/elf.rs`, lines 270-317). -/
def validate (elf : Elf) : Except String Unit :=
  if elf.header.identClass ≠ ElfClass.Class64 then
    Except.error "Error: Incompatible ELF: wrong class"
  else if elf.header.identEndianness ≠ ElfEndianness.LittleEndian then
    Except.error "Error: Incompatible ELF: wrong endianess"
  else if elf.header.identAbi ≠ ElfAbi.SYSV then
    Except.error "Error: Incompatible ELF: wrong abi"
  else if elf.header.machine ≠ ElfMachine.BPF then
    Except.error "Error: Incompatible ELF: wrong machine"
  else if elf.header.etype ≠ ElfFileType.DYN then
    Except.error "Error: Incompatible ELF: wrong type"
  else if 1 < (elf.sections.filter (fun s => nameText.isPrefixOf s.name)).length then
    Except.error "Error: Multiple text sections"
  else
    Except.ok ()

/-- `EBpfElf::get_entrypoint_instruction_offset` (`src/elf.rs`,
lines 134-151). -/
def getEntrypointInstructionOffset (elf : Elf) : Except String Nat :=
  let entry := elf.header.entry
  match getSection elf nameText with
  | Except.error e => Except.error e
  | Except.ok text =>
    if entry < text.header.addr ∨ entry > text.header.addr + text.header.size then
      Except.error "Error: Entrypoint out of bounds"
    else
      let offset := entry - text.header.addr
      if offset % INSN_SIZE ≠ 0 then
        Except.error "Error: Entrypoint not multiple of instruction size"
      else
        Except.ok (offset / INSN_SIZE)

/-- Little-endian `u32` read at byte offset `off`. -/
def readU32LE (bytes : List Nat) (off : Nat) : Nat :=
  byteAt bytes off + 256 * byteAt bytes (off + 1) +
    65536 * byteAt bytes (off + 2) + 16777216 * byteAt bytes (off + 3)

/-- Little-endian `u64` read at byte offset `off`. -/
def readU64LE (bytes : List Nat) (off : Nat) : Nat :=
  readU32LE bytes off + 2 ^ 32 * readU32LE bytes (off + 4)

/-- The 4 little-endian bytes of a `u32`. -/
def u32Bytes (v : Nat) : List Nat :=
  [v % 256, v / 256 % 256, v / 65536 % 256, v / 16777216 % 256]

/-- Overwrite `vals.length` bytes of `bytes` starting at `off`
(`LittleEndian::write_u32` / `write_u64` into a subslice; in-range in
all modelled executions). -/
def writeBytes (bytes : List Nat) (off : Nat) (vals : List Nat) : List Nat :=
  bytes.take off ++ vals ++ bytes.drop (off + vals.length)

/-- `EBpfElf::get_relocations` (`src/elf.rs`, lines 573-609): parse
16-byte `(addr, info)` records while 8 more bytes can be read; fail when
an `addr` was read but its `info` cannot be. -/
def getRelocations (bytes : List Nat) : Except String (List Reloc) :=
  if bytes.length < 8 then Except.ok []
  else if bytes.length < 16 then
    Except.error "Error: Failed to read relocation info"
  else
    let addr := readU64LE bytes 0
    let info := readU64LE bytes 8
    match getRelocations (bytes.drop 16) with
    | Except.error e => Except.error e
    | Except.ok rest =>
      Except.ok ({ addr := addr, sym := info / 2 ^ 32, rtype := info % 2 ^ 32 } :: rest)
termination_by bytes.length
decreasing_by simp; omega

/-- `EBpfElf::get_load_sections` (`src/elf.rs`, lines 350-402): `.text`
(mandatory, raw content required), then `.rodata` and `.data.rel.ro`
(each optional, silently skipped when present but not raw).  `hostOf i`
is the abstract host base address of the `i`-th collected buffer. -/
def getLoadSections (elf : Elf) (hostOf : Nat → Nat) :
    Except String (List SectionInfo) :=
  match elf.sections.find? (fun s => s.name = nameText) with
  | none => Except.error "Error: No .text section"
  | some text =>
    match text.content with
    | SectionContent.raw bytes =>
      let infos := [{ va := text.header.addr, len := text.header.size,
                      bytes := bytes, hostBase := hostOf 0 : SectionInfo }]
      let infos :=
        match elf.sections.find? (fun s => s.name = nameRodata) with
        | some sec =>
          match sec.content with
          | SectionContent.raw bytes =>
            infos ++ [{ va := sec.header.addr, len := sec.header.size,
                        bytes := bytes, hostBase := hostOf infos.length }]
          | _ => infos
        | none => infos
      let infos :=
        match elf.sections.find? (fun s => s.name = nameDataRelRo) with
        | some sec =>
          match sec.content with
          | SectionContent.raw bytes =>
            infos ++ [{ va := sec.header.addr, len := sec.header.size,
                        bytes := bytes, hostBase := hostOf infos.length }]
          | _ => infos
        | none => infos
      Except.ok infos
    | _ => Except.error "Error: Failed to get .text contents"

instance : Inhabited SectionInfo :=
  ⟨{ va := 0, len := 0, bytes := [], hostBase := 0 }⟩

/-- The `R_BPF_64_RELATIVE` arm of `EBpfElf::relocate` (`src/elf.rs`,
lines 435-536): locate the site by virtual address, read the stored
32-bit virtual address from the immediate field, skip when zero, convert
it to a host ("physical") address `refd_pa = host base + offset`, and
write `refd_pa` back — split across the two immediate fields of the
wide-immediate pair when the site is in `.text` (index 0), as a single
64-bit little-endian word otherwise. -/
def applyRelative (infos : List SectionInfo) (relocAddr : Nat) :
    Except String (List SectionInfo) :=
  match infos.findIdx? (fun s => decide (s.va ≤ relocAddr ∧ relocAddr < s.va + s.len)) with
  | none => Except.error "Error: Relocation failed, no loadable section contains virtual address"
  | some t =>
    let sec := infos.getD t default
    let targetOffset := relocAddr - sec.va
    let immOffset := targetOffset + 4
    let refdVa := readU32LE sec.bytes immOffset
    if refdVa = 0 then
      Except.ok infos
    else
      match infos.findIdx? (fun s => decide (s.va ≤ refdVa ∧ refdVa < s.va + s.len)) with
      | none => Except.error "Error: Relocation failed, no loadable section contains referenced virtual address"
      | some r =>
        let rsec := infos.getD r default
        let refdOffset := refdVa - rsec.va
        let refdPa := (rsec.hostBase + refdOffset) % 2 ^ 64
        if t = 0 then
          let bytes' := writeBytes
            (writeBytes sec.bytes immOffset (u32Bytes (refdPa % 2 ^ 32)))
            (immOffset + 8) (u32Bytes (refdPa / 2 ^ 32))
          Except.ok (infos.set t { sec with bytes := bytes' })
        else
          let bytes' := writeBytes sec.bytes targetOffset (le64Bytes refdPa)
          Except.ok (infos.set t { sec with bytes := bytes' })

/-- The `R_BPF_64_32` arm of `EBpfElf::relocate` (`src/elf.rs`,
lines 537-558): hash the symbol name into the call instruction's
immediate field and register function symbols. -/
def apply6432 (hash : List Nat → Nat) (symbols : List ElfSymbol)
    (calls : List (Nat × Nat)) (infos : List SectionInfo) (rel : Reloc) :
    List (Nat × Nat) × List SectionInfo :=
  let symbol := symbols.getD rel.sym ⟨[], 0, ElfSymbolType.other⟩
  let hashv := hash symbol.name % 2 ^ 32
  let text := infos.getD 0 default
  let insnOffset := rel.addr - text.va
  let immOffset := insnOffset + 4
  let textBytes' := writeBytes text.bytes immOffset (u32Bytes hashv)
  let infos' := infos.set 0 { text with bytes := textBytes' }
  let calls' :=
    if symbol.stype = ElfSymbolType.FUNC ∧ symbol.value ≠ 0 then
      (hashv, (symbol.value - text.va) / 8) :: calls
    else calls
  (calls', infos')

/-- The relocation-processing loop of `EBpfElf::relocate`
(`src/elf.rs`, lines 433-564).  `R_BPF_64_RELATIVE` is x86 relocation
type 8, `R_BPF_64_32` is type 10; every other type is an error (the
source reports either "unknown relocation type" at parse time or
"Unhandled relocation type" here; the model reports the latter). -/
def applyRelocs (hash : List Nat → Nat) (symbols : List ElfSymbol)
    (calls : List (Nat × Nat)) (infos : List SectionInfo) :
    List Reloc → Except String (List (Nat × Nat) × List SectionInfo)
  | [] => Except.ok (calls, infos)
  | rel :: rest =>
    if rel.rtype = 8 then
      match applyRelative infos rel.addr with
      | Except.error e => Except.error e
      | Except.ok infos' => applyRelocs hash symbols calls infos' rest
    else if rel.rtype = 10 then
      let (calls', infos') := apply6432 hash symbols calls infos rel
      applyRelocs hash symbols calls' infos' rest
    else
      Except.error "Error: Unhandled relocation type"

/-- `EBpfElf::relocate` (`src/elf.rs`, lines 405-568): collect the load
sections, fix up relative calls in `.text`, then process `.rel.dyn`
(when present with raw content, requiring `.dynsym` symbols). -/
def relocate (hash : List Nat → Nat) (hostOf : Nat → Nat) (elf : Elf) :
    Except String (List (Nat × Nat) × List SectionInfo) :=
  match getLoadSections elf hostOf with
  | Except.error e => Except.error e
  | Except.ok infos =>
    match infos with
    | [] => Except.error "Error: No .text section"
    | text :: others =>
      match fixupRelativeCalls hash [] text.bytes with
      | Except.error e => Except.error e
      | Except.ok (calls, textBytes) =>
        let infos := { text with bytes := textBytes } :: others
        let relocations :=
          match elf.sections.find? (fun s => s.name = nameRelDyn) with
          | some sec =>
            match sec.content with
            | SectionContent.raw bytes => some (getRelocations bytes)
            | _ => none
          | none => none
        match relocations with
        | none => Except.ok (calls, infos)
        | some (Except.error e) => Except.error e
        | some (Except.ok relocs) =>
          match elf.sections.find? (fun s => s.name = nameDynsym) with
          | none => Except.error "Error: No .dynsym section"
          | some dynsym =>
            match dynsym.content with
            | SectionContent.symbols symbols =>
              applyRelocs hash symbols calls infos relocs
            | _ => Except.error "Error: Failed to get .dynsym contents"

/-- `EBpfElf::load` after `elfkit` parsing (`src/elf.rs`, lines 94-116):
validate, then relocate; the loaded artifact is the ELF together with
the call registry and the relocated load sections. -/
def load (hash : List Nat → Nat) (hostOf : Nat → Nat) (elf : Elf) :
    Except String (Elf × List (Nat × Nat) × List SectionInfo) :=
  match validate elf with
  | Except.error e => Except.error e
  | Except.ok () =>
    match relocate hash hostOf elf with
    | Except.error e => Except.error e
    | Except.ok (calls, infos) => Except.ok (elf, calls, infos)

/-! ## JIT call-register dispatch (`src/jit.rs`, `emit_bpf_call`,
lines 362-455, register case; exception handler lines 1173-1177)

The runtime behaviour of the emitted x86 sequence, following the
source's own pseudo-code comments: `RAX &= !(INSN_SIZE - 1)` (an AND
with the sign-extended 32-bit immediate `!7`, i.e. `2^64 - 8`), the
upper and lower bounds checks against
`[program_vm_addr, program_vm_addr + number_of_instructions * INSN_SIZE)`
which jump to `TARGET_PC_CALL_OUTSIDE_TEXT_SEGMENT` carrying the
call-site pc (R11) and the masked target (RAX), then
`RAX -= program_vm_addr` and the load from
`pc_section` at that byte offset (slot index `(RAX) / 8`;
`program_vm_addr` is the 8-aligned `MM_PROGRAM_START`). -/

/-- `CallOutsideTextSegment` payload: call-site pc and target address. -/
structure CallOutside where
  pc : Nat
  target : Nat
  deriving Repr, DecidableEq

/-- `RAX &= !(INSN_SIZE - 1)` on the 64-bit target value. -/
def maskToInsnAlignment (target : Nat) : Nat :=
  target &&& (2 ^ 64 - 8)

/-- The emitted call-register dispatch sequence of `emit_bpf_call`. -/
def callRegDispatch (pcSection : List Nat)
    (programVmAddr numberOfInstructions pc target : Nat) :
    Except CallOutside Nat :=
  if programVmAddr + numberOfInstructions * INSN_SIZE ≤ maskToInsnAlignment target then
    Except.error { pc := pc, target := maskToInsnAlignment target }
  else if maskToInsnAlignment target < programVmAddr then
    Except.error { pc := pc, target := maskToInsnAlignment target }
  else
    Except.ok (pcSection.getD
      ((maskToInsnAlignment target - programVmAddr) / INSN_SIZE) 0)

/-! ## Interpreter / JIT execution equivalence (for claim C1)

The interpreter (`vm.rs`) and the bytecode semantics (`ebpf.rs`) are not
under `src/`, and the JIT's runtime behaviour is carried by emitted
x86-64 code.  Both strategies are therefore modelled from the spec
(§4.F, §4.G, §5) and from `src/jit.rs` itself: the JIT side follows the
emitted meter updates word for word (the pseudo-code comments of
`emit_profile_instruction_count`, `emit_validate_and_profile_instruction_count`
and `emit_undo_profile_instruction_count`, and the "Explaination of the
Instruction Meter" comment block, `src/jit.rs` lines 245-336).

Programs are sequences of abstract instructions over a register state
`σ`: straight-line register updates, unconditional and conditional
jumps (with verified absolute targets), and `exit`.  Tracing appends
`(pc, state)` before each executed instruction on both sides
(spec §4.F; `src/jit.rs` lines 780-783). -/

/-- An abstract bytecode instruction over register state `σ`. -/
inductive TInsn (σ : Type) where
  | simple (f : σ → σ)
  | ja (target : Nat)
  | jcond (p : σ → Bool) (target : Nat)
  | exit

/-- Outcome of a bounded run: normal termination, a fault
(`ExceededMaxInstructions`, `ExecutionOverrun`, ...), or out of fuel. -/
inductive RunRes (α : Type) where
  | ok (a : α)
  | fault
  | timeout
  deriving Repr, DecidableEq

/-- Final state of an interpreter run: result value (`r0`), number of
executed instructions, final meter `remaining`, trace log. -/
structure InterpOut (σ : Type) where
  result : Nat
  executed : Nat
  remaining : Nat
  trace : List (Nat × σ)

/-- Final state of a JIT run: result value, final meter `remaining`
(the running counter `instruction_meter`), trace log. -/
structure JitOut (σ : Type) where
  result : Nat
  remaining : Int
  trace : List (Nat × σ)

/-- Tracing: both strategies append `(pc, registers)` before each
executed instruction when tracing is enabled (spec §4.F;
`src/jit.rs` lines 780-783). -/
def traceStep {σ : Type} (tracing : Bool) (pc : Nat) (st : σ)
    (trace : List (Nat × σ)) : List (Nat × σ) :=
  if tracing then trace ++ [(pc, st)] else trace

/-- Modelled from the spec (§4.F, §4.G): the interpreter loop.  Traces
before each instruction, decrements the meter by one per executed
instruction and faults when it is exhausted, executes until `exit`. -/
def interpRun {σ : Type} (res : σ → Nat) (tracing : Bool)
    (prog : List (TInsn σ)) :
    Nat → Nat → σ → Nat → Nat → List (Nat × σ) → RunRes (InterpOut σ)
  | 0, _, _, _, _, _ => RunRes.timeout
  | fuel + 1, pc, st, rem, n, trace =>
    match prog[pc]? with
    | none => RunRes.fault
    | some (TInsn.simple f) =>
      if rem = 0 then RunRes.fault
      else interpRun res tracing prog fuel (pc + 1) (f st) (rem - 1) (n + 1)
        (traceStep tracing pc st trace)
    | some (TInsn.ja t) =>
      if rem = 0 then RunRes.fault
      else interpRun res tracing prog fuel t st (rem - 1) (n + 1)
        (traceStep tracing pc st trace)
    | some (TInsn.jcond p t) =>
      if rem = 0 then RunRes.fault
      else interpRun res tracing prog fuel (if p st then t else pc + 1) st
        (rem - 1) (n + 1) (traceStep tracing pc st trace)
    | some TInsn.exit =>
      if rem = 0 then RunRes.fault
      else RunRes.ok ⟨res st, n + 1, rem - 1, traceStep tracing pc st trace⟩

/-- The JIT-compiled code (`src/jit.rs`): traces before each
instruction; updates the meter only at branches, first validating
against `pc + 1` (`jb` for the exclusive form used at `exit`, `jbe`
otherwise, jumping to `TARGET_PC_CALL_EXCEEDED_MAX_INSTRUCTIONS`), then
adding `target_pc - (pc + 1)`, undoing the addition after a conditional
fall-through, and treating `exit` as a branch to pc 0. -/
def jitRun {σ : Type} (res : σ → Nat) (tracing : Bool)
    (prog : List (TInsn σ)) :
    Nat → Nat → σ → Int → List (Nat × σ) → RunRes (JitOut σ)
  | 0, _, _, _, _ => RunRes.timeout
  | fuel + 1, pc, st, meter, trace =>
    match prog[pc]? with
    | none => RunRes.fault
    | some (TInsn.simple f) =>
      jitRun res tracing prog fuel (pc + 1) (f st) meter
        (traceStep tracing pc st trace)
    | some (TInsn.ja t) =>
      if meter ≤ (pc : Int) + 1 then RunRes.fault
      else jitRun res tracing prog fuel t st
        (meter + ((t : Int) - ((pc : Int) + 1))) (traceStep tracing pc st trace)
    | some (TInsn.jcond p t) =>
      if meter ≤ (pc : Int) + 1 then RunRes.fault
      else if p st then
        jitRun res tracing prog fuel t st
          (meter + ((t : Int) - ((pc : Int) + 1))) (traceStep tracing pc st trace)
      else
        jitRun res tracing prog fuel (pc + 1) st
          (meter + ((t : Int) - ((pc : Int) + 1)) + (((pc : Int) + 1) - (t : Int)))
          (traceStep tracing pc st trace)
    | some TInsn.exit =>
      if meter < (pc : Int) + 1 then RunRes.fault
      else RunRes.ok ⟨res st, meter + ((0 : Int) - ((pc : Int) + 1)),
        traceStep tracing pc st trace⟩

/-- A whole interpreter execution from the entry point with budget
`initial` (spec §6: the caller receives `(instructions_executed, result)`). -/
def interpExec {σ : Type} (res : σ → Nat) (tracing : Bool)
    (prog : List (TInsn σ)) (fuel entry : Nat) (st : σ) (initial : Nat) :
    RunRes (InterpOut σ) :=
  interpRun res tracing prog fuel entry st initial 0 []

/-- A whole JIT execution: the prologue jump to the entry point runs
`emit_profile_instruction_count(Some(entry + 1))` at `jit.pc = 0`
(`src/jit.rs` lines 765-769), so the meter starts at
`initial + (entry + 1) - (0 + 1) = initial + entry`. -/
def jitExec {σ : Type} (res : σ → Nat) (tracing : Bool)
    (prog : List (TInsn σ)) (fuel entry : Nat) (st : σ) (initial : Nat) :
    RunRes (JitOut σ) :=
  jitRun res tracing prog fuel entry st ((initial : Int) + ((entry : Int) + 1 - (0 + 1))) []

/-! Concrete sample inputs used by witnesses and counterexamples. -/

/-- A well-formed ELF whose entry point is instruction 2 of `.text`. -/
def sampleElfEntryOk : Elf :=
  { header := { identClass := ElfClass.Class64,
                identEndianness := ElfEndianness.LittleEndian,
                identAbi := ElfAbi.SYSV, machine := ElfMachine.BPF,
                etype := ElfFileType.DYN, entry := 4112 },
    sections := [{ name := nameText, header := { addr := 4096, size := 24 },
                   content := SectionContent.raw [] }] }

/-- An ELF whose entry point sits exactly at `text_vm_base + text_size`. -/
def sampleElfEntryBoundary : Elf :=
  { header := { identClass := ElfClass.Class64,
                identEndianness := ElfEndianness.LittleEndian,
                identAbi := ElfAbi.SYSV, machine := ElfMachine.BPF,
                etype := ElfFileType.DYN, entry := 4104 },
    sections := [{ name := nameText, header := { addr := 4096, size := 8 },
                   content := SectionContent.raw [] }] }

/-- An ELF with the wrong machine field. -/
def sampleElfWrongMachine : Elf :=
  { header := { identClass := ElfClass.Class64,
                identEndianness := ElfEndianness.LittleEndian,
                identAbi := ElfAbi.SYSV, machine := ElfMachine.other,
                etype := ElfFileType.DYN, entry := 0 },
    sections := [{ name := nameText, header := { addr := 0, size := 0 },
                   content := SectionContent.raw [] }] }

/-- A sample hash function (the first byte of the input). -/
def sampleHash : List Nat → Nat := fun l => l.getD 0 0

/-- The relative-call test program of `src/elf.rs` (`call -2` at slot 5). -/
def sampleCallProg : List Nat :=
  [0xb7, 0x01, 0x00, 0x00, 0x00, 0x00, 0x00, 0x00,
   0xb7, 0x01, 0x00, 0x00, 0x00, 0x00, 0x00, 0x00,
   0xb7, 0x01, 0x00, 0x00, 0x00, 0x00, 0x00, 0x00,
   0xb7, 0x01, 0x00, 0x00, 0x00, 0x00, 0x00, 0x00,
   0xb7, 0x01, 0x00, 0x00, 0x00, 0x00, 0x00, 0x00,
   0x85, 0x10, 0x00, 0x00, 0xfe, 0xff, 0xff, 0xff]

/-- `sampleCallProg` after `fixup_relative_calls` with `sampleHash`:
slot 5's immediate now holds the key 5. -/
def sampleCallProgFixed : List Nat :=
  [0xb7, 0x01, 0x00, 0x00, 0x00, 0x00, 0x00, 0x00,
   0xb7, 0x01, 0x00, 0x00, 0x00, 0x00, 0x00, 0x00,
   0xb7, 0x01, 0x00, 0x00, 0x00, 0x00, 0x00, 0x00,
   0xb7, 0x01, 0x00, 0x00, 0x00, 0x00, 0x00, 0x00,
   0xb7, 0x01, 0x00, 0x00, 0x00, 0x00, 0x00, 0x00,
   0x85, 0x10, 0x00, 0x00, 0x05, 0x00, 0x00, 0x00]

/-- Load sections for the relocation example: `.text` (two-slot `lddw`
whose immediate stores the virtual address 8192) and `.rodata` at
virtual address 8192, with abstract host base addresses. -/
def sampleRelocInfos : List SectionInfo :=
  [{ va := 4096, len := 16,
     bytes := [0x18, 0x00, 0x00, 0x00, 0x00, 0x20, 0x00, 0x00,
               0x00, 0x00, 0x00, 0x00, 0x00, 0x00, 0x00, 0x00],
     hostBase := 2 ^ 45 },
   { va := 8192, len := 8,
     bytes := [1, 2, 3, 4, 5, 6, 7, 8],
     hostBase := 2 ^ 46 }]

/-- `sampleRelocInfos` after the `R_BPF_64_RELATIVE` relocation at
virtual address 4096: the two immediate fields now hold the 64-bit host
address `2 ^ 46` (low half zero, high half `2 ^ 14`). -/
def sampleRelocInfosAfter : List SectionInfo :=
  [{ va := 4096, len := 16,
     bytes := [0x18, 0x00, 0x00, 0x00, 0x00, 0x00, 0x00, 0x00,
               0x00, 0x00, 0x00, 0x00, 0x00, 0x40, 0x00, 0x00],
     hostBase := 2 ^ 45 },
   { va := 8192, len := 8,
     bytes := [1, 2, 3, 4, 5, 6, 7, 8],
     hostBase := 2 ^ 46 }]

/-- A two-instruction sample program over `Nat` register state. -/
def sampleTProg : List (TInsn Nat) :=
  [TInsn.simple (fun x => x + 5), TInsn.exit]

/-!
# Theorems

Helper lemmas first, then the claim theorems (one per claim, each with
its witness where the statement carries hypotheses).
-/

namespace AlignedMemory

theorem asSlice_append (m : AlignedMemory) (h : m.alignOffset ≤ m.mem.length)
    (l : List Nat) :
    (AlignedMemory.asSlice { m with mem := m.mem ++ l }) = m.asSlice ++ l := by
  simp [asSlice, List.drop_append_of_le_length h]

end AlignedMemory

/-- C10: every `AlignedMemory` satisfies `align_offset ≤ mem.len()` and
`len() ≤ max_len`; the invariant is established by `new`,
`new_with_size` and `new_with_data`, preserved by `write`, `resize` and
mutation through `as_slice_mut`, and under it `as_slice` returns exactly
`len()` bytes. -/
theorem aligned_memory_invariant :
    (∀ align base c, (AlignedMemory.new align base c).Inv) ∧
    (∀ align base l, (AlignedMemory.newWithSize align base l).Inv) ∧
    (∀ (align base : Nat) (data : List Nat), (AlignedMemory.newWithData align base data).Inv) ∧
    (∀ (m : AlignedMemory) (buf : List Nat), m.Inv → (AlignedMemory.write m buf).2.Inv) ∧
    (∀ (m : AlignedMemory) (num value : Nat), m.Inv → (AlignedMemory.resize m num value).2.Inv) ∧
    (∀ (m : AlignedMemory) (f : List Nat → List Nat), m.Inv →
      (∀ l, (f l).length = l.length) → (m.mutateSlice f).Inv) ∧
    (∀ (m : AlignedMemory), m.Inv → m.asSlice.length = m.len) := by
  refine ⟨?_, ?_, ?_, ?_, ?_, ?_, ?_⟩
  · intro align base c
    simp [AlignedMemory.new, AlignedMemory.getMem, AlignedMemory.Inv, AlignedMemory.len]
  · intro align base l
    simp [AlignedMemory.newWithSize, AlignedMemory.getMemZeroed, AlignedMemory.Inv,
      AlignedMemory.len]
  · intro align base data
    simp [AlignedMemory.newWithData, AlignedMemory.getMem, AlignedMemory.Inv,
      AlignedMemory.len]
  · intro m buf h
    unfold AlignedMemory.write
    rcases h with ⟨h1, h2⟩
    split
    · exact ⟨h1, h2⟩
    · simp only [AlignedMemory.Inv, AlignedMemory.len, List.length_append] at *
      omega
  · intro m num value h
    unfold AlignedMemory.resize
    rcases h with ⟨h1, h2⟩
    split
    · exact ⟨h1, h2⟩
    · simp only [AlignedMemory.Inv, AlignedMemory.len, List.length_append,
        List.length_replicate] at *
      omega
  · intro m f h hf
    rcases h with ⟨h1, h2⟩
    simp only [AlignedMemory.Inv, AlignedMemory.mutateSlice, AlignedMemory.len,
      List.length_append, List.length_take, List.length_drop, hf] at *
    omega
  · intro m h
    simp only [AlignedMemory.asSlice, AlignedMemory.len, List.length_drop]

/-- C10 witness: the invariant at concrete instances. -/
theorem aligned_memory_invariant_witness :
    (AlignedMemory.new 8 5 10).Inv ∧
    (AlignedMemory.newWithData 8 5 [1, 2, 3]).Inv ∧
    (AlignedMemory.write (AlignedMemory.new 8 5 10) [7, 7]).2.Inv ∧
    (AlignedMemory.new 8 5 10).asSlice.length = (AlignedMemory.new 8 5 10).len :=
  ⟨aligned_memory_invariant.1 8 5 10,
   aligned_memory_invariant.2.2.1 8 5 [1, 2, 3],
   aligned_memory_invariant.2.2.2.1 _ [7, 7] (aligned_memory_invariant.1 8 5 10),
   aligned_memory_invariant.2.2.2.2.2.2 _ (aligned_memory_invariant.1 8 5 10)⟩

/-- C7: appending through `write` succeeds and extends the contents by
exactly `buf` when `len() + buf.len() ≤ max_len`, and otherwise errors
leaving the buffer unchanged; `resize(num, value)` behaves
symmetrically. -/
theorem aligned_memory_write_resize_spec (m : AlignedMemory) (hInv : m.Inv)
    (buf : List Nat) (num value : Nat) :
    (m.len + buf.length ≤ m.maxLen →
      AlignedMemory.write m buf =
        (Except.ok buf.length, { m with mem := m.mem ++ buf }) ∧
      (AlignedMemory.write m buf).2.asSlice = m.asSlice ++ buf ∧
      (AlignedMemory.write m buf).2.len = m.len + buf.length) ∧
    (m.maxLen < m.len + buf.length →
      AlignedMemory.write m buf = (Except.error "aligned memory write failed", m)) ∧
    (m.len + num ≤ m.maxLen →
      AlignedMemory.resize m num value =
        (Except.ok (), { m with mem := m.mem ++ List.replicate num value }) ∧
      (AlignedMemory.resize m num value).2.asSlice =
        m.asSlice ++ List.replicate num value ∧
      (AlignedMemory.resize m num value).2.len = m.len + num) ∧
    (m.maxLen < m.len + num →
      AlignedMemory.resize m num value = (Except.error "aligned memory resize failed", m)) := by
  rcases hInv with ⟨h1, h2⟩
  have hlen : m.len = m.mem.length - m.alignOffset := rfl
  refine ⟨?_, ?_, ?_, ?_⟩
  · intro h
    have hc : ¬ (m.mem.length + buf.length > m.alignOffset + m.maxLen) := by omega
    have hw : AlignedMemory.write m buf =
        (Except.ok buf.length, { m with mem := m.mem ++ buf }) := by
      simp [AlignedMemory.write, hc]
    refine ⟨hw, ?_, ?_⟩
    · rw [hw]
      exact AlignedMemory.asSlice_append m h1 buf
    · rw [hw]
      simp only [AlignedMemory.len, List.length_append]
      omega
  · intro h
    have hc : m.mem.length + buf.length > m.alignOffset + m.maxLen := by omega
    simp [AlignedMemory.write, hc]
  · intro h
    have hc : ¬ (m.mem.length + num > m.alignOffset + m.maxLen) := by omega
    have hw : AlignedMemory.resize m num value =
        (Except.ok (), { m with mem := m.mem ++ List.replicate num value }) := by
      simp [AlignedMemory.resize, hc]
    refine ⟨hw, ?_, ?_⟩
    · rw [hw]
      exact AlignedMemory.asSlice_append m h1 (List.replicate num value)
    · rw [hw]
      simp only [AlignedMemory.len, List.length_append, List.length_replicate]
      omega
  · intro h
    have hc : m.mem.length + num > m.alignOffset + m.maxLen := by omega
    simp [AlignedMemory.resize, hc]

/-- C7 witness: `write` and `resize` at a concrete buffer, one success
and one capacity failure each. -/
theorem aligned_memory_write_resize_spec_witness :
    ((AlignedMemory.new 8 5 3).len + 2 ≤ (AlignedMemory.new 8 5 3).maxLen ∧
      AlignedMemory.write (AlignedMemory.new 8 5 3) [7, 9] =
        (Except.ok 2, { AlignedMemory.new 8 5 3 with
          mem := (AlignedMemory.new 8 5 3).mem ++ [7, 9] })) ∧
    ((AlignedMemory.new 8 5 3).maxLen < (AlignedMemory.new 8 5 3).len + 4 ∧
      AlignedMemory.resize (AlignedMemory.new 8 5 3) 4 1 =
        (Except.error "aligned memory resize failed", AlignedMemory.new 8 5 3)) := by
  have h := aligned_memory_write_resize_spec (AlignedMemory.new 8 5 3)
    (aligned_memory_invariant.1 8 5 3) [7, 9] 4 1
  exact ⟨⟨by decide, (h.1 (by decide)).1⟩, ⟨by decide, h.2.2.2 (by decide)⟩⟩

/-- C8: a clone re-allocates at a fresh base address and has
byte-identical `as_slice` contents, equal `len()`, and a data pointer
(`base + align_offset`) aligned to `ALIGN`. -/
theorem aligned_memory_clone_spec (align base : Nat) (m : AlignedMemory)
    (hAlign : 0 < align) :
    (AlignedMemory.clone align base m).asSlice = m.asSlice ∧
    (AlignedMemory.clone align base m).len = m.len ∧
    (base + (AlignedMemory.clone align base m).alignOffset) % align = 0 := by
  have hdrop : ∀ (k : Nat) (l : List Nat), (List.replicate k (0 : Nat) ++ l).drop k = l := by
    intro k l
    rw [List.drop_left' (List.length_replicate k 0)]
  refine ⟨?_, ?_, ?_⟩
  · simp [AlignedMemory.clone, AlignedMemory.newWithData, AlignedMemory.getMem,
      AlignedMemory.asSlice, hdrop]
  · simp [AlignedMemory.clone, AlignedMemory.newWithData, AlignedMemory.getMem,
      AlignedMemory.len, AlignedMemory.asSlice]
  · simp only [AlignedMemory.clone, AlignedMemory.newWithData, AlignedMemory.getMem]
    show (base + alignOffsetOf base align) % align = 0
    unfold alignOffsetOf
    rcases Nat.eq_zero_or_pos (base % align) with hz | hp
    · simp [hz, Nat.mod_self, Nat.add_mod, hz]
    · have hlt : base % align < align := Nat.mod_lt base hAlign
      have h1 : (align - base % align) % align = align - base % align :=
        Nat.mod_eq_of_lt (by omega)
      have h3 : base % align + (align - base % align) = align := by omega
      rw [h1, Nat.add_mod, h1, h3, Nat.mod_self]

theorem validate_eq_ok_iff (elf : Elf) :
    validate elf = Except.ok () ↔
      (elf.header.identClass = ElfClass.Class64 ∧
       elf.header.identEndianness = ElfEndianness.LittleEndian ∧
       elf.header.identAbi = ElfAbi.SYSV ∧
       elf.header.machine = ElfMachine.BPF ∧
       elf.header.etype = ElfFileType.DYN ∧
       (elf.sections.filter (fun s => nameText.isPrefixOf s.name)).length ≤ 1) := by
  unfold validate
  split_ifs with h1 h2 h3 h4 h5 h6 <;> simp_all

/-- C6 (amended): for an ELF whose first `.text` section is `text`, the
entry-point computation returns `(entry - text_vm_base) / instruction_size`
exactly when `text_vm_base ≤ entry ≤ text_vm_base + text_size` (the
upper bound inclusive) and `entry - text_vm_base` is a multiple of the
instruction size, and errors otherwise. -/
theorem get_entrypoint_spec (elf : Elf) (text : ElfSection)
    (hText : elf.sections.find? (fun s => s.name = nameText) = some text) :
    (text.header.addr ≤ elf.header.entry ∧
       elf.header.entry ≤ text.header.addr + text.header.size ∧
       (elf.header.entry - text.header.addr) % 8 = 0 →
      getEntrypointInstructionOffset elf =
        Except.ok ((elf.header.entry - text.header.addr) / 8)) ∧
    (¬ (text.header.addr ≤ elf.header.entry ∧
        elf.header.entry ≤ text.header.addr + text.header.size ∧
        (elf.header.entry - text.header.addr) % 8 = 0) →
      isErr (getEntrypointInstructionOffset elf) = true) := by
  unfold getEntrypointInstructionOffset getSection
  rw [hText]
  constructor
  · rintro ⟨ha, hb, hm⟩
    have hcond : ¬ (elf.header.entry < text.header.addr ∨
        elf.header.entry > text.header.addr + text.header.size) := by omega
    simp [hcond, INSN_SIZE, hm]
  · intro hne
    by_cases hcond : elf.header.entry < text.header.addr ∨
        elf.header.entry > text.header.addr + text.header.size
    · simp [hcond, isErr]
    · have hm : (elf.header.entry - text.header.addr) % 8 ≠ 0 := by omega
      simp [hcond, INSN_SIZE, hm, isErr]

/-- C6 witness: a concrete in-range, aligned entry point. -/
theorem get_entrypoint_spec_witness :
    getEntrypointInstructionOffset sampleElfEntryOk = Except.ok 2 := by
  have h := (get_entrypoint_spec sampleElfEntryOk
    { name := nameText, header := { addr := 4096, size := 24 },
      content := SectionContent.raw [] } (by decide)).1 (by decide)
  simpa using h

/-- C6 counterexample: with text at `[4096, 4104)` and `entry = 4104`
(one past the end of the text section's virtual range, aligned), the
code accepts the entry point and returns offset 1, while the claim as
stated requires an error for every entry outside the virtual range. -/
theorem get_entrypoint_boundary_counterexample :
    ¬ (isErr (getEntrypointInstructionOffset sampleElfEntryBoundary) = true ↔
       (4104 < 4096 ∨ 4096 + 8 ≤ 4104 ∨ (4104 - 4096) % 8 ≠ 0)) := by
  decide

/-- C5: loading fails (and no executable is produced) whenever the ELF
header does not declare 64-bit class, little endianness, SysV ABI,
machine BPF and type DYN, or the file does not contain exactly one
`.text` section. -/
theorem load_rejects_invalid_elf (hostOf : Nat → Nat)
    (hashB : List Nat → Nat) (elf : Elf)
    (hbad : elf.header.identClass ≠ ElfClass.Class64 ∨
            elf.header.identEndianness ≠ ElfEndianness.LittleEndian ∨
            elf.header.identAbi ≠ ElfAbi.SYSV ∨
            elf.header.machine ≠ ElfMachine.BPF ∨
            elf.header.etype ≠ ElfFileType.DYN ∨
            (elf.sections.filter (fun s => s.name = nameText)).length ≠ 1) :
    isErr (load hashB hostOf elf) = true := by
  unfold load
  cases hval : validate elf with
  | error e => simp [isErr]
  | ok u =>
    cases u
    obtain ⟨hc, he, ha, hm, ht, hcount⟩ := (validate_eq_ok_iff elf).mp hval
    have hfilter : (elf.sections.filter (fun s => s.name = nameText)).length ≠ 1 := by
      tauto
    have hmono : (elf.sections.filter (fun s => s.name = nameText)).length ≤
        (elf.sections.filter (fun s => nameText.isPrefixOf s.name)).length := by
      rw [← List.countP_eq_length_filter, ← List.countP_eq_length_filter]
      apply List.countP_mono_left
      intro x _ hx
      simp only [decide_eq_true_eq] at hx
      rw [hx]
      decide
    have hzero : (elf.sections.filter (fun s => s.name = nameText)).length = 0 := by
      omega
    have hnone : elf.sections.find? (fun s => s.name = nameText) = none := by
      rw [List.find?_eq_none]
      intro x hx
      rw [List.length_eq_zero, List.filter_eq_nil_iff] at hzero
      exact hzero x hx
    unfold relocate getLoadSections
    rw [hnone]
    simp [isErr]

/-- C5 witness: a concrete ELF with the wrong machine is rejected. -/
theorem load_rejects_invalid_elf_witness :
    isErr (load (fun _ => 0) (fun _ => 0) sampleElfWrongMachine) = true :=
  load_rejects_invalid_elf (fun _ => 0) (fun _ => 0) sampleElfWrongMachine
    (by right; right; right; left; decide)

theorem toUnsigned16_toSigned16 (m : Nat) (h : m < 65536) :
    toUnsigned 16 (toSigned 16 m) = m := by
  unfold toSigned toUnsigned
  split <;> omega

theorem toSigned16_bounds (m : Nat) (h : m < 65536) :
    -32768 ≤ toSigned 16 m ∧ toSigned 16 m < 32768 := by
  unfold toSigned
  split <;> omega

theorem toSigned16_toUnsigned16 (x : Int) (h1 : -32768 ≤ x) (h2 : x < 32768) :
    toSigned 16 (toUnsigned 16 x) = x := by
  unfold toSigned toUnsigned
  split <;> omega

theorem toUnsigned16_lt (x : Int) : toUnsigned 16 x < 65536 := by
  unfold toUnsigned
  omega

theorem toUnsigned32_toSigned32 (m : Nat) (h : m < 4294967296) :
    toUnsigned 32 (toSigned 32 m) = m := by
  unfold toSigned toUnsigned
  split <;> omega

theorem byteAt_lt_256 (p : List Nat) (hv : ValidBytes p) (k : Nat) :
    byteAt p k < 256 := by
  unfold byteAt
  rcases Nat.lt_or_ge k p.length with h | h
  · rw [List.getD_eq_getElem?_getD, List.getElem?_eq_getElem h]
    exact hv _ (List.getElem_mem h)
  · rw [List.getD_eq_getElem?_getD, List.getElem?_eq_none h]
    decide

theorem length_insnToVec (insn : Insn) : (insnToVec insn).length = 8 := rfl

/-- Bytes of the 8-byte splice at slot `i`. -/
theorem byteAt_splice (p v : List Nat) (i k : Nat)
    (hvlen : v.length = 8) (hle : i * 8 + 8 ≤ p.length) :
    byteAt (p.take (i * 8) ++ v ++ p.drop (i * 8 + 8)) k =
      if k < i * 8 then byteAt p k
      else if k < i * 8 + 8 then byteAt v (k - i * 8)
      else byteAt p k := by
  have htake : (p.take (i * 8)).length = i * 8 := by
    rw [List.length_take]
    omega
  unfold byteAt
  simp only [List.getD_eq_getElem?_getD, List.append_assoc]
  split_ifs with h1 h2
  · rw [List.getElem?_append_left (by omega), List.getElem?_take_of_lt (by omega)]
  · rw [List.getElem?_append_right (by omega), htake,
      List.getElem?_append_left (by omega)]
  · rw [List.getElem?_append_right (by omega), htake,
      List.getElem?_append_right (by omega), hvlen, List.getElem?_drop]
    have heq : i * 8 + 8 + (k - i * 8 - 8) = k := by omega
    rw [heq]

theorem length_splice (p v : List Nat) (i : Nat)
    (hvlen : v.length = 8) (hle : i * 8 + 8 ≤ p.length) :
    (p.take (i * 8) ++ v ++ p.drop (i * 8 + 8)).length = p.length := by
  simp only [List.length_append, List.length_take, List.length_drop, hvlen]
  omega

theorem validBytes_splice (p v : List Nat) (i : Nat)
    (hp : ValidBytes p) (hv : ValidBytes v) :
    ValidBytes (p.take (i * 8) ++ v ++ p.drop (i * 8 + 8)) := by
  intro b hb
  simp only [List.append_assoc, List.mem_append] at hb
  rcases hb with h | h | h
  · exact hp b (List.mem_of_mem_take h)
  · exact hv b h
  · exact hp b (List.mem_of_mem_drop h)

/-- Decoding only looks at the 8 bytes of the slot. -/
theorem getInsn_congr (p q : List Nat) (i : Nat)
    (h : ∀ j, j < 8 → byteAt p (i * 8 + j) = byteAt q (i * 8 + j)) :
    getInsn p i = getInsn q i := by
  unfold getInsn
  rw [h 0 (by omega), h 1 (by omega), h 2 (by omega), h 3 (by omega),
    h 4 (by omega), h 5 (by omega), h 6 (by omega), h 7 (by omega)]

theorem validBytes_insnToVec (p : List Nat) (i : Nat) (hv : ValidBytes p)
    (imm' : Int) :
    ValidBytes (insnToVec { getInsn p i with imm := imm' }) := by
  have h0 := byteAt_lt_256 p hv (i * 8 + 0)
  have h1 := byteAt_lt_256 p hv (i * 8 + 1)
  have hu16 := toUnsigned16_lt ((getInsn p i).off)
  intro b hb
  simp only [insnToVec, getInsn, List.mem_cons, List.not_mem_nil, or_false] at hb
  rcases hb with h | h | h | h | h | h | h | h <;> subst h <;> omega

/-- Re-encoding a decoded slot with a new immediate leaves the first
four bytes (opcode, registers, offset) unchanged. -/
theorem insnToVec_first_four (p : List Nat) (i : Nat) (hv : ValidBytes p)
    (imm' : Int) (j : Nat) (hj : j < 4) :
    byteAt (insnToVec { getInsn p i with imm := imm' }) j = byteAt p (i * 8 + j) := by
  have h1 := byteAt_lt_256 p hv (i * 8 + 1)
  have h2 := byteAt_lt_256 p hv (i * 8 + 2)
  have h3 := byteAt_lt_256 p hv (i * 8 + 3)
  have hoff : toUnsigned 16 (toSigned 16
      (byteAt p (i * 8 + 2) + 256 * byteAt p (i * 8 + 3))) =
      byteAt p (i * 8 + 2) + 256 * byteAt p (i * 8 + 3) :=
    toUnsigned16_toSigned16 _ (by omega)
  interval_cases j
  · rfl
  · show byteAt p (i * 8 + 1) / 16 * 16 + byteAt p (i * 8 + 1) % 16 = byteAt p (i * 8 + 1)
    omega
  · show toUnsigned 16 (toSigned 16
        (byteAt p (i * 8 + 2) + 256 * byteAt p (i * 8 + 3))) % 256 = byteAt p (i * 8 + 2)
    rw [hoff]
    omega
  · show toUnsigned 16 (toSigned 16
        (byteAt p (i * 8 + 2) + 256 * byteAt p (i * 8 + 3))) / 256 % 256 = byteAt p (i * 8 + 3)
    rw [hoff]
    omega

/-- Decoding the re-encoded slot (placed at slot 0) returns the decoded
instruction with the new immediate (for a `u32` immediate stored as
`i32`). -/
theorem getInsn_insnToVec (p : List Nat) (i : Nat) (hv : ValidBytes p)
    (key : Nat) (hkey : key < 4294967296) :
    getInsn (insnToVec { getInsn p i with imm := toSigned 32 key }) 0 =
      { getInsn p i with imm := toSigned 32 key } := by
  have h1 := byteAt_lt_256 p hv (i * 8 + 1)
  have h2 := byteAt_lt_256 p hv (i * 8 + 2)
  have h3 := byteAt_lt_256 p hv (i * 8 + 3)
  have hoff : toUnsigned 16 (toSigned 16
      (byteAt p (i * 8 + 2) + 256 * byteAt p (i * 8 + 3))) =
      byteAt p (i * 8 + 2) + 256 * byteAt p (i * 8 + 3) :=
    toUnsigned16_toSigned16 _ (by omega)
  have himm : toUnsigned 32 (toSigned 32 key) = key :=
    toUnsigned32_toSigned32 key hkey
  have hboff := toSigned16_bounds (byteAt p (i * 8 + 2) + 256 * byteAt p (i * 8 + 3))
    (by omega)
  unfold getInsn insnToVec
  simp only [byteAt, List.getD_eq_getElem?_getD] at hoff h2 h3 ⊢
  norm_num [List.getElem?_cons_zero, List.getElem?_cons_succ]
  rw [hoff, himm]
  refine ⟨by omega, by omega, ?_, ?_⟩
  · congr 1
    omega
  · congr 1
    omega

/-- Decoding compares equal across programs when the slot bytes agree. -/
theorem getInsn_congr2 (p q : List Nat) (i i' : Nat)
    (h : ∀ j, j < 8 → byteAt p (i * 8 + j) = byteAt q (i' * 8 + j)) :
    getInsn p i = getInsn q i' := by
  unfold getInsn
  rw [h 0 (by omega), h 1 (by omega), h 2 (by omega), h 3 (by omega),
    h 4 (by omega), h 5 (by omega), h 6 (by omega), h 7 (by omega)]

theorem lookup_cons_none (a k b : Nat) (es : List (Nat × Nat))
    (h : List.lookup a ((k, b) :: es) = none) : a ≠ k ∧ List.lookup a es = none := by
  rw [List.lookup_cons] at h
  cases hbeq : a == k with
  | true =>
    rw [hbeq] at h
    simp at h
  | false =>
    rw [hbeq] at h
    exact ⟨by simpa using hbeq, h⟩

theorem lookup_cons_ne (a k b : Nat) (es : List (Nat × Nat)) (h : a ≠ k) :
    List.lookup a ((k, b) :: es) = List.lookup a es := by
  rw [List.lookup_cons]
  have hbeq : (a == k) = false := by simpa using h
  rw [hbeq]

/-- The main loop invariant of `fixup_relative_calls`: running the loop
from index `i` to the end on a well-formed state yields a program of the
same length whose only changed bytes are the immediate fields of the
call-immediate slots at or after `i`; each such slot is rewritten to its
hash key, registered in the call map with an in-bounds target, fresh
with respect to the incoming map, and free of key collisions. -/
theorem fixupGo_spec (hash : List Nat → Nat) (L : Nat) :
    ∀ (fuel i : Nat) (cs c' : List (Nat × Nat)) (p p' : List Nat),
      L / 8 ≤ i + fuel →
      p.length = L →
      ValidBytes p →
      fixupGo hash (L / 8) fuel (cs, p) i = Except.ok (c', p') →
      p'.length = L ∧
      ValidBytes p' ∧
      (∀ k, ¬ (i ≤ k / 8 ∧ k / 8 < L / 8 ∧ RelCallAt p (k / 8) ∧ 4 ≤ k % 8) →
        byteAt p' k = byteAt p k) ∧
      (∀ j, i ≤ j → j < L / 8 → RelCallAt p j →
        (0 ≤ callTarget p j ∧ callTarget p j < ((L / 8 : Nat) : Int)) ∧
        getInsn p' j = { getInsn p j with imm := toSigned 32 (callKey hash j) } ∧
        c'.lookup (callKey hash j) = some (callTarget p j).toNat ∧
        cs.lookup (callKey hash j) = none) ∧
      (∀ j j', i ≤ j' → j' < j → j < L / 8 → RelCallAt p j' → RelCallAt p j →
        callKey hash j' ≠ callKey hash j) ∧
      (∀ h t, cs.lookup h = some t → c'.lookup h = some t) := by
  intro fuel
  induction fuel with
  | zero =>
    intro i cs c' p p' hfuel hL hv hok
    simp only [fixupGo, Except.ok.injEq, Prod.mk.injEq] at hok
    obtain ⟨rfl, rfl⟩ := hok
    refine ⟨hL, hv, fun k _ => rfl, ?_, ?_, fun h t ht => ht⟩
    · intro j hij hjlt _
      exact absurd hjlt (by omega)
    · intro j j' h1 h2 h3 _ _
      exact absurd h3 (by omega)
  | succ fuel ih =>
    intro i cs c' p p' hfuel hL hv hok
    by_cases hlt : i < L / 8
    · rw [fixupGo, if_pos hlt] at hok
      cases hstep : fixupStep hash (L / 8) (cs, p) i with
      | error e =>
        rw [hstep] at hok
        exact absurd hok (by simp)
      | ok st1 =>
        rw [hstep] at hok
        obtain ⟨cs1, p1⟩ := st1
        replace hok : fixupGo hash (L / 8) fuel (cs1, p1) (i + 1) =
            Except.ok (c', p') := hok
        simp only [fixupStep] at hstep
        split_ifs at hstep with hcall hbnd hdup
        · -- slot i is rewritten
          simp only [Except.ok.injEq, Prod.mk.injEq] at hstep
          obtain ⟨hcs1, hp1⟩ := hstep
          have hle : i * 8 + 8 ≤ p.length := by
            rw [hL]
            have := Nat.div_mul_le_self L 8
            omega
          have hkeylt : callKey hash i < 4294967296 :=
            Nat.mod_lt _ (by norm_num)
          have hlv : (insnToVec { getInsn p i with
              imm := toSigned 32 (hash (le64Bytes i) % 2 ^ 32) }).length = 8 :=
            length_insnToVec _
          have hp1len : p1.length = L := by
            rw [← hp1, length_splice _ _ _ hlv hle, hL]
          have hp1v : ValidBytes p1 := by
            rw [← hp1]
            exact validBytes_splice _ _ _ hv (validBytes_insnToVec p i hv _)
          have hframe1 : ∀ k, ¬ (k / 8 = i ∧ 4 ≤ k % 8) → byteAt p1 k = byteAt p k := by
            intro k hk
            rw [← hp1, byteAt_splice _ _ _ _ hlv hle]
            split_ifs with h1 h2
            · rfl
            · have hki : k / 8 = i := by omega
              have hkm : k % 8 < 4 := by
                by_contra hge
                exact hk ⟨hki, by omega⟩
              have hidx : k - i * 8 < 4 := by omega
              rw [insnToVec_first_four p i hv _ _ hidx]
              congr 1
              omega
            · rfl
          have hslot : ∀ j, j < 8 → byteAt p1 (i * 8 + j) =
              byteAt (insnToVec { getInsn p i with
                imm := toSigned 32 (hash (le64Bytes i) % 2 ^ 32) }) j := by
            intro j hj
            rw [← hp1, byteAt_splice _ _ _ _ hlv hle]
            have h1 : ¬ (i * 8 + j < i * 8) := by omega
            have h2 : i * 8 + j < i * 8 + 8 := by omega
            rw [if_neg h1, if_pos h2]
            congr 1
            omega
          have hdec1 : getInsn p1 i = { getInsn p i with
              imm := toSigned 32 (callKey hash i) } := by
            have hc2 := getInsn_congr2 p1 (insnToVec { getInsn p i with
                imm := toSigned 32 (hash (le64Bytes i) % 2 ^ 32) }) i 0 (by
              intro j hj
              rw [hslot j hj]
              congr 1
              omega)
            rw [hc2]
            exact getInsn_insnToVec p i hv _ hkeylt
          have hinsn_other : ∀ j, j ≠ i → getInsn p1 j = getInsn p j := by
            intro j hj
            refine getInsn_congr p1 p j ?_
            intro r hr
            refine hframe1 (j * 8 + r) ?_
            intro hcontra
            exact hj (by omega)
          have hrel_other : ∀ j, j ≠ i → (RelCallAt p1 j ↔ RelCallAt p j) := by
            intro j hj
            unfold RelCallAt
            rw [hinsn_other j hj]
          have htgt_other : ∀ j, j ≠ i → callTarget p1 j = callTarget p j := by
            intro j hj
            unfold callTarget
            rw [hinsn_other j hj]
          obtain ⟨H1, H2, H3, H4, H5, H6⟩ :=
            ih (i + 1) cs1 c' p1 p' (by omega) hp1len hp1v hok
          have hfreshi : cs.lookup (callKey hash i) = none := by
            show List.lookup (hash (le64Bytes i) % 2 ^ 32) cs = none
            cases hcs : List.lookup (hash (le64Bytes i) % 2 ^ 32) cs with
            | none => rfl
            | some v =>
              rw [hcs] at hdup
              simp at hdup
          have hframe01 : ∀ k, ¬ ((i + 1) ≤ k / 8 ∧ k / 8 < L / 8 ∧
              RelCallAt p1 (k / 8) ∧ 4 ≤ k % 8) → byteAt p' k = byteAt p1 k := H3
          refine ⟨H1, H2, ?_, ?_, ?_, ?_⟩
          · -- frame
            intro k hk
            by_cases hki : k / 8 = i
            · have hkm : k % 8 < 4 := by
                by_contra hge
                exact hk ⟨by omega, by omega, by rw [hki]; exact hcall, by omega⟩
              have e1 : byteAt p' k = byteAt p1 k := by
                apply hframe01
                intro hcontra
                omega
              rw [e1]
              exact hframe1 k (by intro hcontra; omega)
            · have e1 : byteAt p' k = byteAt p1 k := by
                apply hframe01
                intro ⟨ha, hb, hc, hd⟩
                exact hk ⟨by omega, hb, ((hrel_other _ hki).mp hc), hd⟩
              rw [e1]
              exact hframe1 k (by intro hcontra; exact hki hcontra.1)
          · -- per-site
            intro j hij hjlt hcj
            by_cases hji : j = i
            · subst hji
              have hbounds : 0 ≤ callTarget p j ∧
                  callTarget p j < ((L / 8 : Nat) : Int) := by
                unfold callTarget
                push_neg at hbnd
                exact ⟨by omega, by omega⟩
              have hdecode : getInsn p' j = { getInsn p j with
                  imm := toSigned 32 (callKey hash j) } := by
                have e1 : getInsn p' j = getInsn p1 j := by
                  apply getInsn_congr
                  intro r hr
                  apply hframe01
                  intro hcontra
                  omega
                rw [e1, hdec1]
              refine ⟨hbounds, hdecode, ?_, hfreshi⟩
              · apply H6
                rw [← hcs1]
                simp [callKey, callTarget]
            · have hji2 : i + 1 ≤ j := by omega
              have hcj1 : RelCallAt p1 j := (hrel_other j hji).mpr hcj
              obtain ⟨hb4, hd4, hl4, hf4⟩ := H4 j hji2 hjlt hcj1
              rw [htgt_other j hji] at hb4 hl4
              rw [hinsn_other j hji] at hd4
              refine ⟨hb4, hd4, hl4, ?_⟩
              rw [← hcs1] at hf4
              exact (lookup_cons_none _ _ _ _ hf4).2
          · -- injectivity of keys
            intro j j' hij' hj'j hjlt hc' hc
            by_cases hj'i : j' = i
            · have hcj1 : RelCallAt p1 j := (hrel_other j (by omega)).mpr hc
              obtain ⟨_, _, _, hf4⟩ := H4 j (by omega) hjlt hcj1
              rw [← hcs1] at hf4
              intro hkeq
              have hkey2 : callKey hash j = hash (le64Bytes i) % 2 ^ 32 := by
                rw [← hkeq, hj'i]
                rfl
              exact (lookup_cons_none _ _ _ _ hf4).1 hkey2
            · have hcj'1 : RelCallAt p1 j' := (hrel_other j' hj'i).mpr hc'
              have hcj1 : RelCallAt p1 j := (hrel_other j (by omega)).mpr hc
              exact H5 j j' (by omega) hj'j hjlt hcj'1 hcj1
          · -- map preservation
            intro h t ht
            apply H6
            have hne : h ≠ callKey hash i := by
              intro heq
              rw [heq, hfreshi] at ht
              exact absurd ht (by simp)
            rw [← hcs1]
            rw [lookup_cons_ne h (hash (le64Bytes i) % 2 ^ 32) _ _ (fun heq => hne heq)]
            exact ht
        · -- slot i is left unchanged
          simp only [Except.ok.injEq, Prod.mk.injEq] at hstep
          obtain ⟨hcs1, hp1⟩ := hstep
          subst hcs1
          subst hp1
          obtain ⟨H1, H2, H3, H4, H5, H6⟩ :=
            ih (i + 1) cs c' p p' (by omega) hL hv hok
          refine ⟨H1, H2, ?_, ?_, ?_, H6⟩
          · intro k hk
            apply H3
            intro ⟨ha, hb, hc, hd⟩
            exact hk ⟨by omega, hb, hc, hd⟩
          · intro j hij hjlt hcj
            by_cases hji : j = i
            · subst hji
              exact absurd hcj hcall
            · exact H4 j (by omega) hjlt hcj
          · intro j j' hij' hj'j hjlt hc' hc
            by_cases hj'i : j' = i
            · subst hj'i
              exact absurd hc' hcall
            · exact H5 j j' (by omega) hj'j hjlt hc' hc
    · rw [fixupGo, if_neg hlt] at hok
      simp only [Except.ok.injEq, Prod.mk.injEq] at hok
      obtain ⟨rfl, rfl⟩ := hok
      refine ⟨hL, hv, fun k _ => rfl, ?_, ?_, fun h t ht => ht⟩
      · intro j hij hjlt _
        exact absurd hjlt (by omega)
      · intro j j' h1 h2 h3 _ _
        exact absurd h3 (by omega)

/-- C3: on a successful `fixup_relative_calls` run, every call-immediate
slot `i` with non-sentinel immediate has an in-bounds target
`i + 1 + imm` (the run fails otherwise), is rewritten so that its
immediate is the key `hash_symbol_name(little_endian_u64(i))`, the call
registry maps that key to the target, and no two rewritten sites share a
key (a collision fails the run). -/
theorem fixup_relative_calls_spec (hash : List Nat → Nat) (prog : List Nat)
    (calls : List (Nat × Nat)) (p' : List Nat) (hv : ValidBytes prog)
    (hok : fixupRelativeCalls hash [] prog = Except.ok (calls, p')) :
    ∀ i, i < prog.length / 8 → RelCallAt prog i →
      (0 ≤ callTarget prog i ∧
        callTarget prog i < ((prog.length / 8 : Nat) : Int)) ∧
      getInsn p' i = { getInsn prog i with imm := toSigned 32 (callKey hash i) } ∧
      calls.lookup (callKey hash i) = some (callTarget prog i).toNat ∧
      (∀ j, j < prog.length / 8 → RelCallAt prog j →
        callKey hash i = callKey hash j → i = j) := by
  obtain ⟨H1, H2, H3, H4, H5, H6⟩ := fixupGo_spec hash prog.length
    (prog.length / 8) 0 [] calls prog p' (by omega) rfl hv hok
  intro i hi hci
  obtain ⟨hb, hd, hl, _⟩ := H4 i (by omega) hi hci
  refine ⟨hb, hd, hl, ?_⟩
  intro j hj hcj hkeq
  by_contra hne
  rcases Nat.lt_or_ge i j with hij | hij
  · exact H5 j i (by omega) hij hj hci hcj hkeq
  · exact H5 i j (by omega) (by omega) hi hcj hci hkeq.symm

/-- C3 witness: the `call -2` test program, rewritten at slot 5 with key
5 and registry entry `5 ↦ 4`. -/
theorem fixup_relative_calls_spec_witness :
    fixupRelativeCalls sampleHash [] sampleCallProg =
      Except.ok ([(5, 4)], sampleCallProgFixed) ∧
    ((0 ≤ callTarget sampleCallProg 5 ∧
        callTarget sampleCallProg 5 < ((sampleCallProg.length / 8 : Nat) : Int)) ∧
      getInsn sampleCallProgFixed 5 =
        { getInsn sampleCallProg 5 with imm := toSigned 32 (callKey sampleHash 5) } ∧
      List.lookup (callKey sampleHash 5) [(5, 4)] =
        some (callTarget sampleCallProg 5).toNat ∧
      (∀ j, j < sampleCallProg.length / 8 → RelCallAt sampleCallProg j →
        callKey sampleHash 5 = callKey sampleHash j → 5 = j)) := by
  refine ⟨by rfl, ?_⟩
  exact fixup_relative_calls_spec sampleHash sampleCallProg [(5, 4)]
    sampleCallProgFixed (by decide) (by rfl) 5 (by decide) (by decide)

/-- C9: a successful `fixup_relative_calls` run preserves the length of
the program byte vector, and every byte outside the immediate fields of
the rewritten call slots — in particular every slot that is not a
non-sentinel call-immediate, the first four bytes (opcode, registers,
offset) of every rewritten slot, and any trailing bytes — is unchanged. -/
theorem fixup_relative_calls_frame (hash : List Nat → Nat) (prog : List Nat)
    (calls : List (Nat × Nat)) (p' : List Nat) (hv : ValidBytes prog)
    (hok : fixupRelativeCalls hash [] prog = Except.ok (calls, p')) :
    p'.length = prog.length ∧
    ∀ k, ¬ (k / 8 < prog.length / 8 ∧ RelCallAt prog (k / 8) ∧ 4 ≤ k % 8) →
      byteAt p' k = byteAt prog k := by
  obtain ⟨H1, _, H3, _⟩ := fixupGo_spec hash prog.length (prog.length / 8) 0
    [] calls prog p' (by omega) rfl hv hok
  refine ⟨H1, ?_⟩
  intro k hk
  apply H3
  intro hcontra
  exact hk ⟨hcontra.2.1, hcontra.2.2.1, hcontra.2.2.2⟩

/-- C9 witness: the rewritten program has the original length, and the
bytes at 0 (untouched slot) and 42 (offset field of the rewritten slot)
are unchanged. -/
theorem fixup_relative_calls_frame_witness :
    sampleCallProgFixed.length = sampleCallProg.length ∧
    byteAt sampleCallProgFixed 0 = byteAt sampleCallProg 0 ∧
    byteAt sampleCallProgFixed 42 = byteAt sampleCallProg 42 := by
  have h := fixup_relative_calls_frame sampleHash sampleCallProg [(5, 4)]
    sampleCallProgFixed (by decide) (by rfl)
  exact ⟨h.1, h.2 0 (by decide), h.2 42 (by decide)⟩

/-- The x86 AND with `!(INSN_SIZE - 1)` rounds a 64-bit value down to
the nearest multiple of the instruction size. -/
theorem maskToInsnAlignment_eq (t : Nat) (h : t < 2 ^ 64) :
    maskToInsnAlignment t = 8 * (t / 8) := by
  unfold maskToInsnAlignment
  have h8 : (2 ^ 64 - 8 : Nat) = (2 ^ 61 - 1) <<< 3 := by
    norm_num [Nat.shiftLeft_eq]
  have hr : 8 * (t / 8) = (t >>> 3) <<< 3 := by
    simp [Nat.shiftRight_eq_div_pow, Nat.shiftLeft_eq, Nat.mul_comm]
  rw [h8, hr]
  apply Nat.eq_of_testBit_eq
  intro i
  simp only [Nat.testBit_and, Nat.testBit_shiftLeft, Nat.testBit_shiftRight,
    Nat.testBit_two_pow_sub_one]
  by_cases h3 : 3 ≤ i
  · have hi : 3 + (i - 3) = i := by omega
    by_cases h64 : i < 64
    · simp [h3, hi, show i - 3 < 61 by omega]
    · have ht : t.testBit i = false := Nat.testBit_lt_two_pow (by
        calc t < 2 ^ 64 := h
        _ ≤ 2 ^ i := Nat.pow_le_pow_right (by norm_num) (by omega))
      simp [ht, hi, show ¬ (i - 3 < 61) by omega]
  · simp [h3]

/-- C4: the emitted call-register sequence first masks the target down
to instruction-size alignment, raises `CallOutsideTextSegment` carrying
the call-site pc and the (masked) target whenever the masked target is
below `program_vm_addr` or at or above
`program_vm_addr + number_of_instructions * INSN_SIZE`, and otherwise
transfers control through the `pc_section` entry at slot
`(target - program_vm_addr) / INSN_SIZE`, an index always inside the
table — control never enters the native text at an address not read
from `pc_section`. -/
theorem emit_bpf_call_reg_spec (pcSection : List Nat)
    (programVmAddr n pc target : Nat) (h64 : target < 2 ^ 64) :
    (maskToInsnAlignment target = target - target % 8 ∧
      maskToInsnAlignment target % 8 = 0) ∧
    ((maskToInsnAlignment target < programVmAddr ∨
        programVmAddr + n * 8 ≤ maskToInsnAlignment target) →
      callRegDispatch pcSection programVmAddr n pc target =
        Except.error { pc := pc, target := maskToInsnAlignment target }) ∧
    (programVmAddr ≤ maskToInsnAlignment target ∧
        maskToInsnAlignment target < programVmAddr + n * 8 →
      callRegDispatch pcSection programVmAddr n pc target =
        Except.ok (pcSection.getD
          ((maskToInsnAlignment target - programVmAddr) / 8) 0) ∧
      (maskToInsnAlignment target - programVmAddr) / 8 < n) := by
  have hm := maskToInsnAlignment_eq target h64
  refine ⟨⟨by omega, by omega⟩, ?_, ?_⟩
  · intro h
    unfold callRegDispatch INSN_SIZE
    split_ifs with h1 h2
    · rfl
    · rfl
    · exact absurd h (by omega)
  · intro h
    unfold callRegDispatch INSN_SIZE
    split_ifs with h1 h2
    · exact absurd h1 (by omega)
    · exact absurd h2 (by omega)
    · exact ⟨rfl, by omega⟩

/-- C4 witness: a masked in-range target dispatches through slot 1 of
the `pc_section`; an out-of-range target raises the error with the
masked address. -/
theorem emit_bpf_call_reg_spec_witness :
    callRegDispatch [100, 200, 300] 4096 3 7 4109 = Except.ok 200 ∧
    callRegDispatch [100, 200, 300] 4096 3 7 9001 =
      Except.error { pc := 7, target := 9000 } := by
  have hm1 : maskToInsnAlignment 4109 = 4104 := by
    rw [maskToInsnAlignment_eq 4109 (by norm_num)]
  have hm2 : maskToInsnAlignment 9001 = 9000 := by
    rw [maskToInsnAlignment_eq 9001 (by norm_num)]
  constructor
  · have h := ((emit_bpf_call_reg_spec [100, 200, 300] 4096 3 7 4109
      (by norm_num)).2.2 (by rw [hm1]; omega)).1
    rw [hm1] at h
    simpa using h
  · have h := (emit_bpf_call_reg_spec [100, 200, 300] 4096 3 7 9001
      (by norm_num)).2.1 (by rw [hm2]; omega)
    rw [hm2] at h
    exact h

/-- C2 (behaviour of the code at the failing input): the stored
pre-relocation value at the `.text` relocation site is the guest virtual
address 8192 (inside `.rodata`), yet the value the loader writes back
across the two immediate fields is `2 ^ 46` — the host base pointer of
`.rodata`'s byte buffer — which lies inside no loadable section's
virtual range, contradicting the requirement that the post-relocation
value again be a guest virtual address. -/
theorem relocate_relative_writes_host_address :
    applyRelative sampleRelocInfos 4096 = Except.ok sampleRelocInfosAfter ∧
    readU32LE (sampleRelocInfos.getD 0 default).bytes 4 = 8192 ∧
    ((sampleRelocInfos.getD 1 default).va ≤ 8192 ∧
      8192 < (sampleRelocInfos.getD 1 default).va +
        (sampleRelocInfos.getD 1 default).len) ∧
    readU32LE (sampleRelocInfosAfter.getD 0 default).bytes 4 +
      2 ^ 32 * readU32LE (sampleRelocInfosAfter.getD 0 default).bytes 12 =
      (sampleRelocInfos.getD 1 default).hostBase ∧
    (∀ s ∈ sampleRelocInfos,
      ¬ (s.va ≤ readU32LE (sampleRelocInfosAfter.getD 0 default).bytes 4 +
          2 ^ 32 * readU32LE (sampleRelocInfosAfter.getD 0 default).bytes 12 ∧
         readU32LE (sampleRelocInfosAfter.getD 0 default).bytes 4 +
          2 ^ 32 * readU32LE (sampleRelocInfosAfter.getD 0 default).bytes 12 <
          s.va + s.len)) := by
  refine ⟨by rfl, by decide, by decide, by decide, by decide⟩

/-- C8 witness: cloning a concrete buffer at base address 5 with
alignment 8. -/
theorem aligned_memory_clone_spec_witness :
    (AlignedMemory.clone 8 5 (AlignedMemory.newWithData 8 2 [3, 1, 4])).asSlice =
      (AlignedMemory.newWithData 8 2 [3, 1, 4]).asSlice ∧
    (AlignedMemory.clone 8 5 (AlignedMemory.newWithData 8 2 [3, 1, 4])).len =
      (AlignedMemory.newWithData 8 2 [3, 1, 4]).len ∧
    (5 + (AlignedMemory.clone 8 5 (AlignedMemory.newWithData 8 2 [3, 1, 4])).alignOffset) % 8 = 0 :=
  aligned_memory_clone_spec 8 5 (AlignedMemory.newWithData 8 2 [3, 1, 4]) (by decide)

/-- Bookkeeping: an interpreter run that terminates normally satisfies
`remaining + executed = initial remaining + initial count`. -/
theorem interpRun_count {σ : Type} (res : σ → Nat) (tracing : Bool)
    (prog : List (TInsn σ)) :
    ∀ (fuel pc : Nat) (st : σ) (rem n : Nat) (trace : List (Nat × σ))
      (o : InterpOut σ),
      interpRun res tracing prog fuel pc st rem n trace = RunRes.ok o →
      o.remaining + o.executed = rem + n := by
  intro fuel
  induction fuel with
  | zero =>
    intro pc st rem n trace o h
    simp [interpRun] at h
  | succ fuel ih =>
    intro pc st rem n trace o h
    rw [interpRun] at h
    cases hins : prog[pc]? with
    | none =>
      rw [hins] at h
      simp at h
    | some insn =>
      rw [hins] at h
      by_cases hrem : rem = 0
      · cases insn <;> simp [hrem] at h
      · cases insn with
        | simple f =>
          replace h : (if rem = 0 then RunRes.fault
              else interpRun res tracing prog fuel (pc + 1) (f st) (rem - 1)
                (n + 1) (traceStep tracing pc st trace)) = RunRes.ok o := h
          rw [if_neg hrem] at h
          have := ih (pc + 1) (f st) (rem - 1) (n + 1) _ o h
          omega
        | ja t =>
          replace h : (if rem = 0 then RunRes.fault
              else interpRun res tracing prog fuel t st (rem - 1)
                (n + 1) (traceStep tracing pc st trace)) = RunRes.ok o := h
          rw [if_neg hrem] at h
          have := ih t st (rem - 1) (n + 1) _ o h
          omega
        | jcond p t =>
          replace h : (if rem = 0 then RunRes.fault
              else interpRun res tracing prog fuel (if p st then t else pc + 1)
                st (rem - 1) (n + 1) (traceStep tracing pc st trace)) = RunRes.ok o := h
          rw [if_neg hrem] at h
          have := ih (if p st then t else pc + 1) st (rem - 1) (n + 1) _ o h
          omega
        | exit =>
          replace h : (if rem = 0 then RunRes.fault
              else RunRes.ok (⟨res st, n + 1, rem - 1,
                traceStep tracing pc st trace⟩ : InterpOut σ)) = RunRes.ok o := h
          rw [if_neg hrem] at h
          cases h
          simp
          omega

/-- The lock-step simulation between the interpreter and the JIT meter
scheme: started at the same pc, state and trace, with the JIT running
meter equal to `remaining + pc`, two normally-terminating runs agree on
the result, the final meter and the trace. -/
theorem interp_jit_sim {σ : Type} (res : σ → Nat) (tracing : Bool)
    (prog : List (TInsn σ)) :
    ∀ (f1 f2 pc : Nat) (st : σ) (rem n : Nat) (trace : List (Nat × σ))
      (o1 : InterpOut σ) (o2 : JitOut σ),
      interpRun res tracing prog f1 pc st rem n trace = RunRes.ok o1 →
      jitRun res tracing prog f2 pc st ((rem : Int) + (pc : Int)) trace = RunRes.ok o2 →
      o1.result = o2.result ∧ ((o1.remaining : Int)) = o2.remaining ∧
        o1.trace = o2.trace := by
  intro f1
  induction f1 with
  | zero =>
    intro f2 pc st rem n trace o1 o2 h1 h2
    simp [interpRun] at h1
  | succ f1 ih =>
    intro f2 pc st rem n trace o1 o2 h1 h2
    cases f2 with
    | zero => simp [jitRun] at h2
    | succ f2 =>
      rw [interpRun] at h1
      rw [jitRun] at h2
      cases hins : prog[pc]? with
      | none =>
        rw [hins] at h1
        simp at h1
      | some insn =>
        rw [hins] at h1 h2
        by_cases hrem : rem = 0
        · cases insn <;> simp [hrem] at h1
        · cases insn with
          | simple f =>
            replace h1 : (if rem = 0 then RunRes.fault
                else interpRun res tracing prog f1 (pc + 1) (f st) (rem - 1)
                  (n + 1) (traceStep tracing pc st trace)) = RunRes.ok o1 := h1
            rw [if_neg hrem] at h1
            replace h2 : jitRun res tracing prog f2 (pc + 1) (f st)
                ((rem : Int) + (pc : Int)) (traceStep tracing pc st trace) =
                RunRes.ok o2 := h2
            have hm : ((rem : Int) + (pc : Int)) =
                (((rem - 1 : Nat) : Int) + ((pc + 1 : Nat) : Int)) := by
              push_cast
              omega
            rw [hm] at h2
            exact ih f2 (pc + 1) (f st) (rem - 1) (n + 1) _ o1 o2 h1 h2
          | ja t =>
            replace h1 : (if rem = 0 then RunRes.fault
                else interpRun res tracing prog f1 t st (rem - 1)
                  (n + 1) (traceStep tracing pc st trace)) = RunRes.ok o1 := h1
            rw [if_neg hrem] at h1
            replace h2 : (if (rem : Int) + (pc : Int) ≤ (pc : Int) + 1 then
                RunRes.fault
              else jitRun res tracing prog f2 t st
                ((rem : Int) + (pc : Int) + ((t : Int) - ((pc : Int) + 1)))
                (traceStep tracing pc st trace)) = RunRes.ok o2 := h2
            by_cases hg : (rem : Int) + (pc : Int) ≤ (pc : Int) + 1
            · rw [if_pos hg] at h2
              simp at h2
            · rw [if_neg hg] at h2
              have hm : ((rem : Int) + (pc : Int) + ((t : Int) - ((pc : Int) + 1))) =
                  (((rem - 1 : Nat) : Int) + ((t : Nat) : Int)) := by
                omega
              rw [hm] at h2
              exact ih f2 t st (rem - 1) (n + 1) _ o1 o2 h1 h2
          | jcond p t =>
            replace h1 : (if rem = 0 then RunRes.fault
                else interpRun res tracing prog f1 (if p st then t else pc + 1)
                  st (rem - 1) (n + 1) (traceStep tracing pc st trace)) =
                RunRes.ok o1 := h1
            rw [if_neg hrem] at h1
            replace h2 : (if (rem : Int) + (pc : Int) ≤ (pc : Int) + 1 then
                RunRes.fault
              else if p st then
                jitRun res tracing prog f2 t st
                  ((rem : Int) + (pc : Int) + ((t : Int) - ((pc : Int) + 1)))
                  (traceStep tracing pc st trace)
              else
                jitRun res tracing prog f2 (pc + 1) st
                  ((rem : Int) + (pc : Int) + ((t : Int) - ((pc : Int) + 1)) +
                    (((pc : Int) + 1) - (t : Int)))
                  (traceStep tracing pc st trace)) = RunRes.ok o2 := h2
            by_cases hg : (rem : Int) + (pc : Int) ≤ (pc : Int) + 1
            · rw [if_pos hg] at h2
              simp at h2
            · rw [if_neg hg] at h2
              cases hp : p st with
              | true =>
                rw [if_pos hp] at h1 h2
                have hm : ((rem : Int) + (pc : Int) + ((t : Int) - ((pc : Int) + 1))) =
                    (((rem - 1 : Nat) : Int) + ((t : Nat) : Int)) := by
                  omega
                rw [hm] at h2
                exact ih f2 t st (rem - 1) (n + 1) _ o1 o2 h1 h2
              | false =>
                have hp2 : ¬ (p st = true) := by simp [hp]
                rw [if_neg hp2] at h1 h2
                have hm : ((rem : Int) + (pc : Int) + ((t : Int) - ((pc : Int) + 1)) +
                    (((pc : Int) + 1) - (t : Int))) =
                    (((rem - 1 : Nat) : Int) + ((pc + 1 : Nat) : Int)) := by
                  push_cast
                  omega
                rw [hm] at h2
                exact ih f2 (pc + 1) st (rem - 1) (n + 1) _ o1 o2 h1 h2
          | exit =>
            replace h1 : (if rem = 0 then RunRes.fault
                else RunRes.ok (⟨res st, n + 1, rem - 1,
                  traceStep tracing pc st trace⟩ : InterpOut σ)) = RunRes.ok o1 := h1
            rw [if_neg hrem] at h1
            replace h2 : (if (rem : Int) + (pc : Int) < (pc : Int) + 1 then
                RunRes.fault
              else RunRes.ok (⟨res st,
                (rem : Int) + (pc : Int) + ((0 : Int) - ((pc : Int) + 1)),
                traceStep tracing pc st trace⟩ : JitOut σ)) = RunRes.ok o2 := h2
            by_cases hg : (rem : Int) + (pc : Int) < (pc : Int) + 1
            · rw [if_pos hg] at h2
              simp at h2
            · rw [if_neg hg] at h2
              cases h1
              cases h2
              refine ⟨rfl, ?_, rfl⟩
              push_cast
              omega

/-- C1: for every program and input on which both the interpreter and
the JIT-compiled code run to termination, the two strategies yield the
same result value, the same executed-instruction count (the interpreter
executes exactly `initial - remaining` instructions and the JIT's final
meter equals the interpreter's final `remaining`), and identical trace
logs. -/
theorem interp_jit_equivalence {σ : Type} (res : σ → Nat) (tracing : Bool)
    (prog : List (TInsn σ)) (fuel1 fuel2 entry : Nat) (st : σ) (initial : Nat)
    (o1 : InterpOut σ) (o2 : JitOut σ)
    (h1 : interpExec res tracing prog fuel1 entry st initial = RunRes.ok o1)
    (h2 : jitExec res tracing prog fuel2 entry st initial = RunRes.ok o2) :
    o1.result = o2.result ∧
    o1.executed + o1.remaining = initial ∧
    ((o1.remaining : Int)) = o2.remaining ∧
    (initial : Int) - (o1.executed : Int) = o2.remaining ∧
    o1.trace = o2.trace := by
  unfold interpExec at h1
  unfold jitExec at h2
  have hm : ((initial : Int) + ((entry : Int) + 1 - (0 + 1))) =
      ((initial : Int) + (entry : Int)) := by ring
  rw [hm] at h2
  obtain ⟨ha, hb, hc⟩ :=
    interp_jit_sim res tracing prog fuel1 fuel2 entry st initial 0 [] o1 o2 h1 h2
  have hcount := interpRun_count res tracing prog fuel1 entry st initial 0 [] o1 h1
  exact ⟨ha, by omega, hb, by omega, hc⟩

/-- C1 witness: a concrete traced run of `sampleTProg` with budget 3 on
both strategies. -/
theorem interp_jit_equivalence_witness :
    interpExec (fun x : Nat => x) true sampleTProg 2 0 0 3 =
      RunRes.ok ⟨5, 2, 1, [(0, 0), (1, 5)]⟩ ∧
    jitExec (fun x : Nat => x) true sampleTProg 2 0 0 3 =
      RunRes.ok ⟨5, 1, [(0, 0), (1, 5)]⟩ ∧
    ((⟨5, 2, 1, [(0, 0), (1, 5)]⟩ : InterpOut Nat).result =
        (⟨5, 1, [(0, 0), (1, 5)]⟩ : JitOut Nat).result ∧
      (⟨5, 2, 1, [(0, 0), (1, 5)]⟩ : InterpOut Nat).executed +
        (⟨5, 2, 1, [(0, 0), (1, 5)]⟩ : InterpOut Nat).remaining = 3 ∧
      (((⟨5, 2, 1, [(0, 0), (1, 5)]⟩ : InterpOut Nat).remaining : Int)) =
        (⟨5, 1, [(0, 0), (1, 5)]⟩ : JitOut Nat).remaining ∧
      ((3 : Nat) : Int) - (((⟨5, 2, 1, [(0, 0), (1, 5)]⟩ : InterpOut Nat).executed : Nat) : Int) =
        (⟨5, 1, [(0, 0), (1, 5)]⟩ : JitOut Nat).remaining ∧
      (⟨5, 2, 1, [(0, 0), (1, 5)]⟩ : InterpOut Nat).trace =
        (⟨5, 1, [(0, 0), (1, 5)]⟩ : JitOut Nat).trace) := by
  have e1 : interpExec (fun x : Nat => x) true sampleTProg 2 0 0 3 =
      RunRes.ok ⟨5, 2, 1, [(0, 0), (1, 5)]⟩ := rfl
  have e2 : jitExec (fun x : Nat => x) true sampleTProg 2 0 0 3 =
      RunRes.ok ⟨5, 1, [(0, 0), (1, 5)]⟩ := rfl
  exact ⟨e1, e2, interp_jit_equivalence (fun x : Nat => x) true sampleTProg
    2 2 0 0 3 _ _ e1 e2⟩

end RBPF
